import Mathlib

/-!
# Verification of the realtime voice-agent session manager

Shallow embedding of the core subsystem of the `ab_emergency` repository:
the directive parser and call-trigger effect (`src/components/EmergencyCoach.tsx`),
and the audio codec, playback scheduler and session protocol state machine
(`src/hooks/useElevenLabsAgent.ts`).

Strings are modelled as `List Char`; JavaScript numbers are modelled as `ℚ`
(exact for the float32 inputs and float64 intermediates that occur here);
16-bit PCM samples are modelled as `ℤ` constrained to `[-32768, 32768)`.
-/

/-! ## Directive parser (`parseAssistantMessage`, EmergencyCoach.tsx lines 29-58) -/

/-- The `[[CALL_EMERGENCY_CONTACT]]` control marker. -/
def callMarker : List Char := "[[CALL_EMERGENCY_CONTACT]]".data

/-- The `[[LINKS]]` control marker. -/
def linksMarker : List Char := "[[LINKS]]".data

/-- A parsed `ResourceLink` (`ParsedResource` in the source). -/
structure ParsedResource where
  label : List Char
  description : List Char
  deriving Repr, DecidableEq

/-- The result of directive parsing (`ParsedMessage` in the source). -/
structure ParsedMessage where
  text : List Char
  resources : List ParsedResource
  triggerCall : Bool
  deriving Repr, DecidableEq

/-- JavaScript `String.prototype.trim` on the leading side: drop whitespace. -/
def trimLeft (l : List Char) : List Char := l.dropWhile Char.isWhitespace

/-- JavaScript `String.prototype.trim`: drop whitespace at both ends. -/
def trimChars (l : List Char) : List Char :=
  ((trimLeft l).reverse.dropWhile Char.isWhitespace).reverse

/-- `text.match(/\[\[LINKS\]\](.+)$/s)` together with
`text.replace(/\[\[LINKS\]\].+$/s, "")`: both operate at the leftmost
occurrence of the marker that is followed by at least one character, so we
compute the split once: `some (pre, post)` where `pre` is the text before
that occurrence and `post` the captured text after the marker. -/
def splitAtMarker (m : List Char) : List Char → Option (List Char × List Char)
  | [] => none
  | c :: t =>
    if m.isPrefixOf (c :: t) && !((c :: t).drop m.length).isEmpty then
      some ([], (c :: t).drop m.length)
    else
      match splitAtMarker m t with
      | some (pre, post) => some (c :: pre, post)
      | none => none

/-- JavaScript `String.prototype.split(sep)` on a single-character separator. -/
def splitOnChar (sep : Char) : List Char → List (List Char)
  | [] => [[]]
  | c :: t =>
    if c = sep then [] :: splitOnChar sep t
    else
      match splitOnChar sep t with
      | h :: r => (c :: h) :: r
      | [] => [[c]]

/-- One resource item: `part.split(":")`, the first field (trimmed, defaulting
to `"Resource"` when empty) is the label, the remaining fields re-joined with
`":"` and trimmed are the description. -/
def parseResource (part : List Char) : ParsedResource :=
  match splitOnChar ':' part with
  | [] => ⟨"Resource".data, []⟩
  | lab :: descParts =>
    let lt := trimChars lab
    ⟨if lt.isEmpty then "Resource".data else lt,
     trimChars (List.intercalate [':'] descParts)⟩

/-- `parseAssistantMessage` (EmergencyCoach.tsx lines 29-58).  The
trigger-marker strip `text.replace("[[CALL_EMERGENCY_CONTACT]]", "")` removes
the first occurrence of the marker; under the `startsWith` guard that first
occurrence is the prefix, hence `List.drop callMarker.length`. -/
def parseAssistantMessage (rawText : List Char) : ParsedMessage :=
  let step1 : List Char × Bool :=
    if callMarker.isPrefixOf rawText then
      (trimChars (rawText.drop callMarker.length), true)
    else (rawText, false)
  match splitAtMarker linksMarker step1.1 with
  | some (pre, post) =>
    let linksSection := trimChars post
    let parts := (splitOnChar ';' linksSection).filter
      (fun p => !(trimChars p).isEmpty)
    ⟨trimChars pre, parts.map parseResource, step1.2⟩
  | none => ⟨step1.1, [], step1.2⟩

/-- Substring test: `true` iff `m` occurs as a contiguous run inside `l`. -/
def containsSub (m : List Char) : List Char → Bool
  | [] => m.isEmpty
  | c :: t => m.isPrefixOf (c :: t) || containsSub m t

theorem isPrefixOf_eq_false_of_not_containsSub {m l : List Char}
    (h : containsSub m l = false) : m.isPrefixOf l = false := by
  cases l with
  | nil =>
    cases m with
    | nil => simp [containsSub] at h
    | cons a m' => rfl
  | cons c t =>
    simp only [containsSub, Bool.or_eq_false_iff] at h
    exact h.1

theorem splitAtMarker_eq_none_of_not_containsSub {m l : List Char}
    (h : containsSub m l = false) : splitAtMarker m l = none := by
  induction l with
  | nil => rfl
  | cons c t ih =>
    simp only [containsSub, Bool.or_eq_false_iff] at h
    simp [splitAtMarker, h.1, ih h.2]

/-! ## Call-trigger effect and dedup set
(EmergencyCoach.tsx lines 196 and 219-237)

The component holds `processedCallsRef : Set<string>` and a `useEffect` that,
on every render, walks the full list of parsed messages; for each entry whose
directive has `triggerCall` set and whose id is not yet in the set, it first
adds the id to the set and then issues the telephony call.  We model the
relevant state as the set of processed ids together with the ordered list of
ids for which `callEmergencyContact` was invoked. -/

/-- What the call-trigger effect reads from one transcript entry: the entry's
id (`original.id`) and the parsed directive's trigger flag
(`parsed.triggerCall`). -/
structure EntryDirective where
  id : String
  triggerCall : Bool

/-- State owned by the effect: the dedup set (modelled as a list used as a
set) and the ids for which the telephony collaborator has been invoked, in
invocation order. -/
structure CallEffectState where
  processedCalls : List String
  calls : List String

/-- The body of the `forEach` in the call-trigger `useEffect`: check the
dedup set, insert, then invoke. -/
def processEntry (st : CallEffectState) (e : EntryDirective) : CallEffectState :=
  if e.triggerCall && !(st.processedCalls.contains e.id) then
    { processedCalls := e.id :: st.processedCalls, calls := st.calls ++ [e.id] }
  else st

/-- One run of the call-trigger `useEffect`: a pass over the whole parsed
message list. -/
def processPass (st : CallEffectState) (entries : List EntryDirective) :
    CallEffectState :=
  entries.foldl processEntry st

/-- A whole session of effect runs (the effect fires once per render, each
time over the full list). -/
def runCallEffects (passes : List (List EntryDirective)) : CallEffectState :=
  passes.foldl processPass ⟨[], []⟩

/-- Dedup invariant: an id has been called exactly once iff it is in the
processed set, and never otherwise. -/
def CallInv (st : CallEffectState) : Prop :=
  ∀ id : String, st.calls.count id = if id ∈ st.processedCalls then 1 else 0

theorem callInv_processEntry {st : CallEffectState} (e : EntryDirective)
    (h : CallInv st) : CallInv (processEntry st e) := by
  unfold processEntry
  split
  · rename_i hcond
    simp only [Bool.and_eq_true, Bool.not_eq_true'] at hcond
    have hnm : e.id ∉ st.processedCalls := by
      intro hmem
      have h1 : st.processedCalls.contains e.id = true := by
        simpa [List.elem_iff] using hmem
      rw [hcond.2] at h1
      exact Bool.false_ne_true h1
    intro id
    by_cases hid : id = e.id
    · subst hid
      have h0 := h e.id
      rw [if_neg hnm] at h0
      simp [List.count_append, h0]
    · have h0 := h id
      have hid2 : ¬e.id = id := fun hh => hid hh.symm
      simp [List.count_append, List.count_cons, List.mem_cons, hid, hid2, h0]
  · exact h

theorem callInv_processPass {entries : List EntryDirective} :
    ∀ {st : CallEffectState}, CallInv st → CallInv (processPass st entries) := by
  induction entries with
  | nil => intro st h; exact h
  | cons e t ih =>
    intro st h
    exact ih (callInv_processEntry e h)

theorem mem_mono_processEntry {st : CallEffectState} {e : EntryDirective}
    {id : String} (h : id ∈ st.processedCalls) :
    id ∈ (processEntry st e).processedCalls := by
  unfold processEntry
  split
  · exact List.mem_cons_of_mem _ h
  · exact h

theorem mem_mono_processPass {entries : List EntryDirective} :
    ∀ {st : CallEffectState} {id : String},
      id ∈ st.processedCalls →
      id ∈ (processPass st entries).processedCalls := by
  induction entries with
  | nil => intro st id h; exact h
  | cons e t ih => intro st id h; exact ih (mem_mono_processEntry h)

theorem mem_after_processEntry {st : CallEffectState} {e : EntryDirective}
    (h : e.triggerCall = true) :
    e.id ∈ (processEntry st e).processedCalls := by
  unfold processEntry
  split
  · exact List.mem_cons_self _ _
  · rename_i hcond
    rw [Bool.not_eq_true] at hcond
    simp only [h, Bool.true_and, Bool.not_eq_false] at hcond
    simpa [List.elem_iff] using hcond

theorem mem_after_processPass {entries : List EntryDirective}
    {e : EntryDirective} (hmem : e ∈ entries) (htrig : e.triggerCall = true) :
    ∀ {st : CallEffectState},
      e.id ∈ (processPass st entries).processedCalls := by
  induction entries with
  | nil => cases hmem
  | cons a t ih =>
    intro st
    rcases List.mem_cons.mp hmem with heq | hmemt
    · subst heq
      show e.id ∈ (processPass (processEntry st e) t).processedCalls
      exact mem_mono_processPass (mem_after_processEntry htrig)
    · exact ih hmemt

theorem callInv_runPasses {passes : List (List EntryDirective)} :
    ∀ {st : CallEffectState}, CallInv st →
      CallInv (passes.foldl processPass st) := by
  induction passes with
  | nil => intro st h; exact h
  | cons a t ih => intro st h; exact ih (callInv_processPass h)

theorem mem_mono_runPasses {passes : List (List EntryDirective)} :
    ∀ {st : CallEffectState} {id : String},
      id ∈ st.processedCalls →
      id ∈ (passes.foldl processPass st).processedCalls := by
  induction passes with
  | nil => intro st id h; exact h
  | cons a t ih => intro st id h; exact ih (mem_mono_processPass h)

theorem mem_after_runPasses {passes : List (List EntryDirective)}
    {pass : List EntryDirective} {e : EntryDirective}
    (hp : pass ∈ passes) (he : e ∈ pass) (htrig : e.triggerCall = true) :
    ∀ {st : CallEffectState},
      e.id ∈ (passes.foldl processPass st).processedCalls := by
  induction passes with
  | nil => cases hp
  | cons a t ih =>
    intro st
    rcases List.mem_cons.mp hp with heq | hmemt
    · subst heq
      show e.id ∈ (t.foldl processPass (processPass st pass)).processedCalls
      exact mem_mono_runPasses (mem_after_processPass he htrig)
    · exact ih hmemt

theorem callInv_runCallEffects (passes : List (List EntryDirective)) :
    CallInv (runCallEffects passes) := by
  apply callInv_runPasses
  intro id
  simp [List.count_nil]

/-- C1: over a whole session (any sequence of effect passes, each pass
observing any list of entries), the telephony collaborator is invoked at
most once per entry identifier, and exactly once for the identifier of any
trigger-flagged entry that was processed at least once — even if the same
entry is processed again in a later pass. -/
theorem trigger_call_at_most_once (passes : List (List EntryDirective)) :
    (∀ id : String, (runCallEffects passes).calls.count id ≤ 1) ∧
    (∀ pass ∈ passes, ∀ e ∈ pass, e.triggerCall = true →
      (runCallEffects passes).calls.count e.id = 1) := by
  have hinv := callInv_runCallEffects passes
  constructor
  · intro id
    rw [hinv id]
    split
    · exact le_refl 1
    · exact Nat.zero_le 1
  · intro pass hp e he htrig
    rw [hinv e.id, if_pos]
    exact mem_after_runPasses hp he htrig

theorem trigger_call_at_most_once_witness :
    (runCallEffects [[⟨"assistant-1", true⟩], [⟨"assistant-1", true⟩]]).calls.count
      "assistant-1" = 1 :=
  (trigger_call_at_most_once [[⟨"assistant-1", true⟩], [⟨"assistant-1", true⟩]]).2
    [⟨"assistant-1", true⟩] (by simp) ⟨"assistant-1", true⟩ (by simp) rfl

/-- C2: parsing the documented example yields the trigger flag, the stripped
display text and the two resources; and any input containing neither control
marker parses to itself with no resources and no trigger. -/
theorem parseAssistantMessage_spec :
    (parseAssistantMessage
        "[[CALL_EMERGENCY_CONTACT]]Patient unconscious[[LINKS]]CPR Guide:https://x;Poison Control:1-800-222-1222".data =
      ⟨"Patient unconscious".data,
       [⟨"CPR Guide".data, "https://x".data⟩,
        ⟨"Poison Control".data, "1-800-222-1222".data⟩], true⟩) ∧
    (∀ l : List Char, containsSub callMarker l = false →
      containsSub linksMarker l = false →
      parseAssistantMessage l = ⟨l, [], false⟩) := by
  constructor
  · decide
  · intro l h1 h2
    unfold parseAssistantMessage
    rw [isPrefixOf_eq_false_of_not_containsSub h1]
    simp only [Bool.false_eq_true, if_false]
    rw [splitAtMarker_eq_none_of_not_containsSub h2]

theorem parseAssistantMessage_spec_witness :
    parseAssistantMessage "hello".data = ⟨"hello".data, [], false⟩ :=
  parseAssistantMessage_spec.2 "hello".data (by decide) (by decide)

/-! ## Audio codec: sample conversion
(`float32ToInt16`, useElevenLabsAgent.ts lines 46-53, and the
fixed-to-floating division in `base64ToFloat32`, lines 68-81)

Sample values are modelled as `ℚ`.  This is exact for the inputs the code
sees: a float32 sample and the float64 products `s * 0x8000` / `s * 0x7fff`
are exact rationals, and the `Int16Array` element assignment truncates the
float64 value toward zero. -/

/-- `Math.max(-1, Math.min(1, v))` from `float32ToInt16`. -/
def clampUnit (v : ℚ) : ℚ := max (-1) (min 1 v)

/-- JavaScript's ToInt16 truncation toward zero (no wrap needed: every value
it is applied to here lies in `[-32768, 32767]`). -/
def truncQ (q : ℚ) : ℤ := if 0 ≤ q then ⌊q⌋ else ⌈q⌉

/-- One sample of `float32ToInt16`:
`s < 0 ? s * 0x8000 : s * 0x7fff` after clamping, truncated by the
`Int16Array` store. -/
def float32ToInt16Sample (v : ℚ) : ℤ :=
  let s := clampUnit v
  if s < 0 then truncQ (s * 32768) else truncQ (s * 32767)

/-- One sample of the fixed-to-floating conversion in `base64ToFloat32`:
`int16Array[i] / 0x8000`. -/
def int16SampleToFloat (i : ℤ) : ℚ := (i : ℚ) / 32768

/-- C3 counterexample: the float32-representable sample
`v = 65535/65536 = 1 - 2^-16` lies in `[-1, 1]`, yet its round trip through
`float32ToInt16` and the `/ 0x8000` decoding is `32766/32768`, which is
`3/65536` away from `v` — more than the claimed one quantization step
`1/32768 = 2/65536` (the encoder scales nonnegative samples by `0x7fff`
while the decoder divides by `0x8000`). -/
theorem float32_roundtrip_step_counterexample :
    (-1 : ℚ) ≤ 65535 / 65536 ∧ (65535 / 65536 : ℚ) ≤ 1 ∧
    ¬ (|int16SampleToFloat (float32ToInt16Sample (65535 / 65536)) -
        65535 / 65536| ≤ 1 / 32768) := by
  refine ⟨by norm_num, by norm_num, ?_⟩
  have h : float32ToInt16Sample (65535 / 65536) = 32766 := by
    unfold float32ToInt16Sample clampUnit truncQ
    rw [min_eq_right (by norm_num), max_eq_right (by norm_num)]
    rw [if_neg (by norm_num), if_pos (by norm_num)]
    norm_num
  rw [h]
  unfold int16SampleToFloat
  rw [abs_le]
  norm_num

/-- C3 (amended): for `v ∈ [-1, 1]` the fixed-point round trip is within
two quantization steps (`2/32768`) of `v` (one step is exceeded for some
positive `v` because the scale used upward is `0x7fff` but the division
back is by `0x8000`), and out-of-range input is clamped to the
representable extremes `0x7fff` / `-0x8000` without overflow. -/
theorem float32_roundtrip_bounds (v : ℚ) :
    (-1 ≤ v → v ≤ 1 →
      |int16SampleToFloat (float32ToInt16Sample v) - v| ≤ 2 / 32768) ∧
    (1 < v → float32ToInt16Sample v = 32767) ∧
    (v < -1 → float32ToInt16Sample v = -32768) := by
  refine ⟨?_, ?_, ?_⟩
  · intro hlo hhi
    unfold float32ToInt16Sample clampUnit truncQ int16SampleToFloat
    rw [min_eq_right hhi, max_eq_right hlo]
    by_cases hneg : v < 0
    · rw [if_pos hneg, if_neg (by nlinarith)]
      have hle : (v * 32768 : ℚ) ≤ (⌈v * 32768⌉ : ℚ) := Int.le_ceil _
      have hlt : ((⌈v * 32768⌉ : ℚ)) < v * 32768 + 1 := Int.ceil_lt_add_one _
      rw [abs_le]
      constructor <;> linarith
    · push_neg at hneg
      rw [if_neg (not_lt.mpr hneg), if_pos (by nlinarith)]
      have hle : ((⌊v * 32767⌋ : ℚ)) ≤ v * 32767 := Int.floor_le _
      have hgt : (v * 32767 : ℚ) - 1 < (⌊v * 32767⌋ : ℚ) := Int.sub_one_lt_floor _
      rw [abs_le]
      constructor <;> linarith
  · intro hv
    unfold float32ToInt16Sample clampUnit truncQ
    rw [min_eq_left (le_of_lt hv), max_eq_right (by norm_num)]
    rw [if_neg (by norm_num), if_pos (by norm_num)]
    norm_num
  · intro hv
    unfold float32ToInt16Sample clampUnit truncQ
    rw [min_eq_right (by linarith), max_eq_left (by linarith)]
    rw [if_pos (by norm_num), if_neg (by norm_num)]
    norm_num
    rw [show ((-32768 : ℚ)) = ((-32768 : ℤ) : ℚ) by norm_num, Int.ceil_intCast]

theorem float32_roundtrip_bounds_witness :
    |int16SampleToFloat (float32ToInt16Sample (1 / 2)) - 1 / 2| ≤ 2 / 32768 :=
  (float32_roundtrip_bounds (1 / 2)).1 (by norm_num) (by norm_num)

/-! ## Audio codec: transport encoding
(`int16ToBase64`, useElevenLabsAgent.ts lines 59-66, and `base64ToFloat32`,
lines 68-81)

`int16ToBase64` views the `Int16Array` buffer as little-endian bytes, builds
a binary string and calls the host `btoa`; `base64ToFloat32` calls the host
`atob`, reassembles little-endian byte pairs into two's-complement 16-bit
samples and divides each by `0x8000`.  The host functions `btoa`/`atob` are
the standard base64 codec (RFC 4648 with `=` padding), embedded here as
`btoaL`/`atobL`; `atobL` rejects exactly the strings `atob` throws on among
properly padded inputs, which covers every string produced by `btoaL`. -/

def b64Table : List Char :=
  "ABCDEFGHIJKLMNOPQRSTUVWXYZabcdefghijklmnopqrstuvwxyz0123456789+/".data

def b64Char (v : ℕ) : Char := b64Table.getD v 'A'

def b64Val (c : Char) : Option ℕ := b64Table.findIdx? (fun x => x = c)

def btoaL : List ℕ → List Char
  | [] => []
  | [b0] => [b64Char (b0 / 4), b64Char (b0 % 4 * 16), '=', '=']
  | [b0, b1] =>
    [b64Char (b0 / 4), b64Char (b0 % 4 * 16 + b1 / 16), b64Char (b1 % 16 * 4), '=']
  | b0 :: b1 :: b2 :: t =>
    b64Char (b0 / 4) :: b64Char (b0 % 4 * 16 + b1 / 16) ::
      b64Char (b1 % 16 * 4 + b2 / 64) :: b64Char (b2 % 64) :: btoaL t

def atobL : List Char → Option (List ℕ)
  | [] => some []
  | c0 :: c1 :: c2 :: c3 :: t =>
    if c3 = '=' ∧ t = [] then
      if c2 = '=' then
        match b64Val c0, b64Val c1 with
        | some v0, some v1 => some [v0 * 4 + v1 / 16]
        | _, _ => none
      else
        match b64Val c0, b64Val c1, b64Val c2 with
        | some v0, some v1, some v2 =>
          some [v0 * 4 + v1 / 16, v1 % 16 * 16 + v2 / 4]
        | _, _, _ => none
    else
      match b64Val c0, b64Val c1, b64Val c2, b64Val c3, atobL t with
      | some v0, some v1, some v2, some v3, some r =>
        some ((v0 * 4 + v1 / 16) :: (v1 % 16 * 16 + v2 / 4) :: (v2 % 4 * 64 + v3) :: r)
      | _, _, _, _, _ => none
  | _ => none

theorem b64Val_b64Char : ∀ v : ℕ, v < 64 → b64Val (b64Char v) = some v := by
  decide

theorem b64Char_ne_eq : ∀ v : ℕ, v < 64 → b64Char v ≠ '=' := by
  decide




theorem atobL_btoaL_aux : ∀ (n : ℕ) (bs : List ℕ), bs.length ≤ n →
    (∀ b ∈ bs, b < 256) → atobL (btoaL bs) = some bs := by
  intro n
  induction n with
  | zero =>
    intro bs h _
    cases bs with
    | nil => rfl
    | cons a t => simp at h
  | succ n ih =>
    intro bs h hb
    match bs with
    | [] => rfl
    | [b0] =>
      have h0 : b0 < 256 := hb b0 (by simp)
      simp only [btoaL, atobL, eq_self_iff_true, and_self, if_true]
      rw [b64Val_b64Char _ (by omega), b64Val_b64Char _ (by omega)]
      simp only [Option.some.injEq, List.cons.injEq, and_true]
      omega
    | [b0, b1] =>
      have h0 : b0 < 256 := hb b0 (by simp)
      have h1 : b1 < 256 := hb b1 (by simp)
      simp only [btoaL, atobL, eq_self_iff_true, and_self, if_true]
      rw [if_neg (b64Char_ne_eq _ (by omega))]
      rw [b64Val_b64Char _ (by omega), b64Val_b64Char _ (by omega),
        b64Val_b64Char _ (by omega)]
      simp only [Option.some.injEq, List.cons.injEq, and_true]
      omega
    | b0 :: b1 :: b2 :: t =>
      have h0 : b0 < 256 := hb b0 (by simp)
      have h1 : b1 < 256 := hb b1 (by simp)
      have h2 : b2 < 256 := hb b2 (by simp)
      have ht : atobL (btoaL t) = some t := by
        apply ih
        · simp at h; omega
        · intro b hbm; exact hb b (by simp [hbm])
      simp only [btoaL, atobL, eq_self_iff_true, and_self, if_true]
      rw [if_neg (fun hc => b64Char_ne_eq _ (by omega) hc.1)]
      rw [b64Val_b64Char _ (by omega), b64Val_b64Char _ (by omega),
        b64Val_b64Char _ (by omega), b64Val_b64Char _ (by omega), ht]
      simp only [Option.some.injEq, List.cons.injEq, and_true]
      refine ⟨by omega, by omega, by omega⟩

theorem atobL_btoaL (bs : List ℕ) (hb : ∀ b ∈ bs, b < 256) :
    atobL (btoaL bs) = some bs :=
  atobL_btoaL_aux bs.length bs le_rfl hb

def int16ToU16 (i : ℤ) : ℕ := (i % 65536).toNat

def int16LeBytes (i : ℤ) : List ℕ := [int16ToU16 i % 256, int16ToU16 i / 256]

def bytesOfInt16 : List ℤ → List ℕ
  | [] => []
  | i :: t => int16LeBytes i ++ bytesOfInt16 t

def int16OfU16 (u : ℕ) : ℤ := if u < 32768 then (u : ℤ) else (u : ℤ) - 65536

def int16sOfBytes : List ℕ → Option (List ℤ)
  | [] => some []
  | lo :: hi :: t => (int16sOfBytes t).map (fun r => int16OfU16 (lo + 256 * hi) :: r)
  | [_] => none

def int16ToBase64 (l : List ℤ) : List Char := btoaL (bytesOfInt16 l)

def base64ToFloat32 (s : List Char) : Option (List ℚ) :=
  match atobL s with
  | none => none
  | some bytes =>
    match int16sOfBytes bytes with
    | none => none
    | some ints => some (ints.map (fun i : ℤ => (i : ℚ) / 32768))

def decodeTransport (s : List Char) : Option (List ℤ) :=
  match atobL s with
  | none => none
  | some bytes => int16sOfBytes bytes

theorem int16ToU16_lt (i : ℤ) : int16ToU16 i < 65536 := by
  unfold int16ToU16
  omega

theorem bytesOfInt16_lt (l : List ℤ) : ∀ b ∈ bytesOfInt16 l, b < 256 := by
  induction l with
  | nil => intro b hbm; simp [bytesOfInt16] at hbm
  | cons i t ih =>
    intro b hbm
    have hu := int16ToU16_lt i
    simp only [bytesOfInt16, int16LeBytes, List.cons_append, List.nil_append,
      List.mem_cons] at hbm
    rcases hbm with h | h | h
    · omega
    · omega
    · exact ih b h

theorem int16sOfBytes_bytesOfInt16 (l : List ℤ)
    (hr : ∀ i ∈ l, -32768 ≤ i ∧ i < 32768) :
    int16sOfBytes (bytesOfInt16 l) = some l := by
  induction l with
  | nil => rfl
  | cons i t ih =>
    have hi := hr i (by simp)
    have hrt : ∀ j ∈ t, -32768 ≤ j ∧ j < 32768 := fun j hj => hr j (by simp [hj])
    show Option.map (fun r => int16OfU16 (int16ToU16 i % 256 + 256 * (int16ToU16 i / 256)) :: r)
        (int16sOfBytes (bytesOfInt16 t)) = some (i :: t)
    rw [ih hrt]
    simp only [Option.map_some', Option.some.injEq, List.cons.injEq, and_true]
    unfold int16OfU16 int16ToU16
    split_ifs <;> omega

/-- C4: for every valid 16-bit sample buffer, the transport byte-string
encoding is lossless: decoding the encoded string recovers the samples
exactly, re-encoding the decoded samples gives back the same string
(self-inverse on the encoder's range), and the sample count is preserved
with no framing bytes. -/
theorem transport_roundtrip (l : List ℤ)
    (hr : ∀ i ∈ l, -32768 ≤ i ∧ i < 32768) :
    decodeTransport (int16ToBase64 l) = some l ∧
    int16ToBase64 ((decodeTransport (int16ToBase64 l)).getD []) = int16ToBase64 l ∧
    base64ToFloat32 (int16ToBase64 l) =
      some (l.map (fun i : ℤ => (i : ℚ) / 32768)) ∧
    ((base64ToFloat32 (int16ToBase64 l)).getD []).length = l.length := by
  have h1 : atobL (btoaL (bytesOfInt16 l)) = some (bytesOfInt16 l) :=
    atobL_btoaL _ (bytesOfInt16_lt l)
  have h2 : int16sOfBytes (bytesOfInt16 l) = some l :=
    int16sOfBytes_bytesOfInt16 l hr
  have hd : decodeTransport (int16ToBase64 l) = some l := by
    unfold decodeTransport int16ToBase64
    rw [h1]
    exact h2
  have hf : base64ToFloat32 (int16ToBase64 l) =
      some (l.map (fun i : ℤ => (i : ℚ) / 32768)) := by
    unfold base64ToFloat32 int16ToBase64
    rw [h1]
    show (match int16sOfBytes (bytesOfInt16 l) with
      | none => none
      | some ints => some (ints.map (fun i : ℤ => (i : ℚ) / 32768))) =
      some (l.map (fun i : ℤ => (i : ℚ) / 32768))
    rw [h2]
  refine ⟨hd, ?_, hf, ?_⟩
  · rw [hd]
    rfl
  · rw [hf]
    simp only [Option.getD_some, List.length_map]

theorem transport_roundtrip_witness :
    decodeTransport (int16ToBase64 [0, 1, -1, 32767, -32768]) =
      some [0, 1, -1, 32767, -32768] :=
  (transport_roundtrip [0, 1, -1, 32767, -32768] (by decide)).1

/-! ## Playback scheduler (`playAudioChunk`, useElevenLabsAgent.ts lines 104-137)

`playAudioChunk` pushes the decoded segment onto `audioQueueRef`, returns if
`isPlayingRef` is set, and otherwise sets it and drains the queue in a loop,
awaiting each segment's `onended` before shifting the next; on empty queue
the loop clears `isPlayingRef` and exits.  We model this as a labelled
transition system whose interleavings include every schedule the event loop
can produce: an enqueue while busy only appends; an enqueue while idle also
spawns a drain loop (`loops` holds one entry per live loop — `none` between
segments, `some a` while segment `a` is audibly playing); a loop may start
the head segment when it is between segments, finish its current segment, or
exit when the queue is empty.  `enq` is the ghost list of all segments ever
enqueued, in order. -/

structure SchedState where
  queue : List ℕ
  isPlaying : Bool
  loops : List (Option ℕ)
  played : List ℕ
  enq : List ℕ

def segsOf (ls : List (Option ℕ)) : List ℕ := ls.filterMap id

def initSched : SchedState := ⟨[], false, [], [], []⟩

inductive SchedStep : SchedState → SchedState → Prop
  | enqueueBusy (a : ℕ) (q : List ℕ) (ls : List (Option ℕ)) (pl e : List ℕ) :
      SchedStep ⟨q, true, ls, pl, e⟩ ⟨q ++ [a], true, ls, pl, e ++ [a]⟩
  | enqueueIdle (a : ℕ) (q : List ℕ) (ls : List (Option ℕ)) (pl e : List ℕ) :
      SchedStep ⟨q, false, ls, pl, e⟩ ⟨q ++ [a], true, none :: ls, pl, e ++ [a]⟩
  | startSeg (a : ℕ) (q : List ℕ) (l1 l2 : List (Option ℕ)) (p : Bool)
      (pl e : List ℕ) :
      SchedStep ⟨a :: q, p, l1 ++ none :: l2, pl, e⟩
        ⟨q, p, l1 ++ some a :: l2, pl, e⟩
  | finishSeg (a : ℕ) (q : List ℕ) (l1 l2 : List (Option ℕ)) (p : Bool)
      (pl e : List ℕ) :
      SchedStep ⟨q, p, l1 ++ some a :: l2, pl, e⟩
        ⟨q, p, l1 ++ none :: l2, pl ++ [a], e⟩
  | exitLoop (l1 l2 : List (Option ℕ)) (p : Bool) (pl e : List ℕ) :
      SchedStep ⟨[], p, l1 ++ none :: l2, pl, e⟩ ⟨[], false, l1 ++ l2, pl, e⟩

inductive SchedReach : SchedState → Prop
  | init : SchedReach initSched
  | step {s s' : SchedState} : SchedReach s → SchedStep s s' → SchedReach s'

def SchedInv (s : SchedState) : Prop :=
  s.loops.length ≤ 1 ∧
  (s.isPlaying = true ↔ s.loops ≠ []) ∧
  s.played ++ segsOf s.loops ++ s.queue = s.enq ∧
  (s.isPlaying = false → s.queue = [])

theorem schedInv_step {s s' : SchedState} (hs : SchedStep s s')
    (h : SchedInv s) : SchedInv s' := by
  obtain ⟨hlen, hiff, hcons, hidle⟩ := h
  cases hs with
  | enqueueBusy a q ls pl e =>
    dsimp only at hlen hiff hcons hidle ⊢
    refine ⟨hlen, hiff, ?_, by intro hc; cases hc⟩
    calc pl ++ segsOf ls ++ (q ++ [a]) = (pl ++ segsOf ls ++ q) ++ [a] := by
          simp
      _ = e ++ [a] := by rw [hcons]
  | enqueueIdle a q ls pl e =>
    dsimp only at hlen hiff hcons hidle ⊢
    have hls : ls = [] := by
      by_contra hne
      have hcontra := hiff.mpr hne
      simp at hcontra
    have hq : q = [] := hidle rfl
    subst hls; subst hq
    have hpl : pl = e := by simpa [segsOf] using hcons
    subst hpl
    refine ⟨by simp, by simp, by simp [segsOf], by intro hc; cases hc⟩
  | startSeg a q l1 l2 p pl e =>
    dsimp only at hlen hiff hcons hidle ⊢
    have h1 : l1 = [] := List.length_eq_zero.mp (by
      simp only [List.length_append, List.length_cons] at hlen
      omega)
    subst h1
    have h2 : l2 = [] := List.length_eq_zero.mp (by
      simp only [List.length_append, List.length_cons] at hlen
      omega)
    subst h2
    have hp : p = true := hiff.mpr (by simp)
    subst hp
    refine ⟨by simp, by simp, ?_, by intro hc; cases hc⟩
    simp only [segsOf] at hcons ⊢
    simp at hcons ⊢
    simpa using hcons
  | finishSeg a q l1 l2 p pl e =>
    dsimp only at hlen hiff hcons hidle ⊢
    have h1 : l1 = [] := List.length_eq_zero.mp (by
      simp only [List.length_append, List.length_cons] at hlen
      omega)
    subst h1
    have h2 : l2 = [] := List.length_eq_zero.mp (by
      simp only [List.length_append, List.length_cons] at hlen
      omega)
    subst h2
    have hp : p = true := hiff.mpr (by simp)
    subst hp
    refine ⟨by simp, by simp, ?_, by intro hc; cases hc⟩
    simp only [segsOf] at hcons ⊢
    simp at hcons ⊢
    simpa using hcons
  | exitLoop l1 l2 p pl e =>
    dsimp only at hlen hiff hcons hidle ⊢
    have h1 : l1 = [] := List.length_eq_zero.mp (by
      simp only [List.length_append, List.length_cons] at hlen
      omega)
    subst h1
    have h2 : l2 = [] := List.length_eq_zero.mp (by
      simp only [List.length_append, List.length_cons] at hlen
      omega)
    subst h2
    refine ⟨by simp, by simp, ?_, fun _ => rfl⟩
    simpa [segsOf] using hcons

theorem schedInv_of_reach {s : SchedState} (h : SchedReach s) : SchedInv s := by
  induction h with
  | init =>
    refine ⟨by simp [initSched], by simp [initSched],
      by simp [initSched, segsOf], fun _ => rfl⟩
  | step hr hs ih => exact schedInv_step hs ih

/-- C5: in every reachable scheduler state, at most one drain loop is live
(an enqueue during draining never spawns a second one), at most one segment
is audibly playing (no overlap), the played list followed by the in-flight
and pending segments is exactly the enqueue order (nothing dropped, nothing
reordered — in particular the played list is always a prefix of the enqueue
order), and whenever the scheduler is idle everything enqueued has been
played to completion. -/
theorem playback_scheduler_ordered (s : SchedState) (h : SchedReach s) :
    s.loops.length ≤ 1 ∧
    (segsOf s.loops).length ≤ 1 ∧
    s.played ++ segsOf s.loops ++ s.queue = s.enq ∧
    (s.isPlaying = false → s.played = s.enq) := by
  obtain ⟨hlen, hiff, hcons, hidle⟩ := schedInv_of_reach h
  refine ⟨hlen, ?_, hcons, ?_⟩
  · calc (segsOf s.loops).length ≤ s.loops.length :=
          List.length_filterMap_le id s.loops
      _ ≤ 1 := hlen
  · intro hp
    have hq : s.queue = [] := hidle hp
    have hls : s.loops = [] := by
      by_contra hne
      rw [hiff.mpr hne] at hp
      cases hp
    rw [hq, hls] at hcons
    simpa [segsOf] using hcons

theorem playback_scheduler_ordered_witness :
    (SchedState.mk [] false [] [7] [7]).loops.length ≤ 1 ∧
    (segsOf (SchedState.mk [] false [] [7] [7]).loops).length ≤ 1 ∧
    (SchedState.mk [] false [] [7] [7]).played ++
        segsOf (SchedState.mk [] false [] [7] [7]).loops ++
        (SchedState.mk [] false [] [7] [7]).queue =
      (SchedState.mk [] false [] [7] [7]).enq ∧
    ((SchedState.mk [] false [] [7] [7]).isPlaying = false →
      (SchedState.mk [] false [] [7] [7]).played =
        (SchedState.mk [] false [] [7] [7]).enq) :=
  playback_scheduler_ordered (SchedState.mk [] false [] [7] [7])
    (SchedReach.step
      (SchedReach.step
        (SchedReach.step
          (SchedReach.step SchedReach.init (SchedStep.enqueueIdle 7 [] [] [] []))
          (SchedStep.startSeg 7 [] [] [] true [] [7]))
        (SchedStep.finishSeg 7 [] [] [] true [] [7]))
      (SchedStep.exitLoop [] [] true [7] [7]))

/-! ## Session protocol state machine
(`useElevenLabsAgent`, useElevenLabsAgent.ts lines 87-400)

The hook state: the `status` and `messages` React states plus one Boolean
per mutable ref recording whether the resource is currently held
(`wsRef` present / open, `mediaStreamRef`, `audioContextRef`,
`playbackContextRef`, `processorRef`), together with the playback queue and
flag shared with the scheduler model above.  Outbound sends (the `pong`
reply, audio frames, user text) leave the hook state unchanged and are not
recorded. -/

/-- `AgentStatus` (useElevenLabsAgent.ts lines 15-20). -/
inductive AgentStatus
  | disconnected
  | connecting
  | connected
  | listening
  | speaking
  deriving DecidableEq, Repr

/-- Speaker role of a `TranscriptMessage`. -/
inductive Role
  | user
  | assistant
  deriving DecidableEq, Repr

/-- `TranscriptMessage` (useElevenLabsAgent.ts lines 9-13). -/
structure TranscriptMessage where
  id : String
  role : Role
  text : String
  deriving DecidableEq, Repr

/-- The mutable state owned by the hook. -/
structure SessionState where
  status : AgentStatus
  messages : List TranscriptMessage
  wsPresent : Bool
  wsOpen : Bool
  mediaStream : Bool
  audioContext : Bool
  playbackContext : Bool
  processor : Bool
  audioQueue : List ℕ
  isPlaying : Bool
  deriving DecidableEq, Repr

/-- `stop` (useElevenLabsAgent.ts lines 320-355): unconditionally stop the
microphone tracks, disconnect the processor, close both audio contexts and
the WebSocket, null every ref, clear the playback queue and flag, and set
the status to `disconnected`. -/
def stop (st : SessionState) : SessionState :=
  { st with
    mediaStream := false
    processor := false
    audioContext := false
    playbackContext := false
    wsPresent := false
    wsOpen := false
    audioQueue := []
    isPlaying := false
    status := AgentStatus.disconnected }

/-- A fully torn-down session: every resource released, queue empty,
status `disconnected` — exactly the state `stop` leaves behind. -/
def TornDown (st : SessionState) : Prop :=
  st.status = AgentStatus.disconnected ∧ st.mediaStream = false ∧
  st.processor = false ∧ st.audioContext = false ∧
  st.playbackContext = false ∧ st.wsPresent = false ∧ st.wsOpen = false ∧
  st.audioQueue = [] ∧ st.isPlaying = false

/-- C8: `stop` is idempotent — a second `stop` changes nothing; after any
`stop` the status is `disconnected`, the microphone, audio contexts and
transport are all released and the pending queue is empty (the transcript is
untouched); and on an already torn-down session `stop` is a no-op that
leaves the whole state unchanged. -/
theorem stop_idempotent (st : SessionState) :
    stop (stop st) = stop st ∧
    (stop st).status = AgentStatus.disconnected ∧
    TornDown (stop st) ∧
    (stop st).messages = st.messages ∧
    (TornDown st → stop st = st) := by
  refine ⟨rfl, rfl, ⟨rfl, rfl, rfl, rfl, rfl, rfl, rfl, rfl, rfl⟩, rfl, ?_⟩
  intro h
  obtain ⟨h1, h2, h3, h4, h5, h6, h7, h8, h9⟩ := h
  cases st
  simp only [stop]
  simp_all

theorem stop_idempotent_witness :
    stop (SessionState.mk AgentStatus.disconnected [] false false
      false false false false [] false) =
    SessionState.mk AgentStatus.disconnected [] false false
      false false false false [] false :=
  (stop_idempotent (SessionState.mk AgentStatus.disconnected [] false false
    false false false false [] false)).2.2.2.2
    ⟨rfl, rfl, rfl, rfl, rfl, rfl, rfl, rfl, rfl⟩

/-- The two environment identities read at the top of `start`
(useElevenLabsAgent.ts lines 225-226); `none` models an unset variable. -/
structure AgentConfig where
  apiKey : Option String
  agentId : Option String

/-- JavaScript truthiness test `!apiKey` for an env string: missing or
empty both fail the check. -/
def falsyEnv : Option String → Bool
  | none => true
  | some s => s.isEmpty

/-- The `"ElevenLabs configuration missing"` error thrown by `start`. -/
inductive StartError
  | configurationMissing
  deriving DecidableEq, Repr

/-- The synchronous prefix of `start` (useElevenLabsAgent.ts lines
224-237), up to its first suspension point (the `getUserMedia` await): the
configuration check runs before a single piece of state is touched and
throws, leaving the state unchanged; on success `setStatus("connecting")`
and `setMessages([])` have run and the connection attempt is still ahead. -/
def startSync (cfg : AgentConfig) (st : SessionState) :
    SessionState × Option StartError :=
  if falsyEnv cfg.apiKey || falsyEnv cfg.agentId then
    (st, some StartError.configurationMissing)
  else
    ({ st with status := AgentStatus.connecting, messages := [] }, none)

/-- C6: with the remote endpoint identity absent, `start` fails
synchronously with the configuration error, the state is completely
unchanged (so no transport was opened and no resource acquired), and in
particular a `disconnected` status stays `disconnected`. -/
theorem start_missing_config (cfg : AgentConfig) (st : SessionState)
    (hbad : (falsyEnv cfg.apiKey || falsyEnv cfg.agentId) = true) :
    startSync cfg st = (st, some StartError.configurationMissing) ∧
    (st.status = AgentStatus.disconnected →
      (startSync cfg st).1.status = AgentStatus.disconnected) := by
  unfold startSync
  rw [if_pos hbad]
  exact ⟨rfl, fun h => h⟩

theorem start_missing_config_witness :
    startSync (AgentConfig.mk none (some "agent"))
        (SessionState.mk AgentStatus.disconnected [] false false
          false false false false [] false) =
      (SessionState.mk AgentStatus.disconnected [] false false
        false false false false [] false,
       some StartError.configurationMissing) :=
  (start_missing_config (AgentConfig.mk none (some "agent"))
    (SessionState.mk AgentStatus.disconnected [] false false
      false false false false [] false) rfl).1

/-- Component-level state of `EmergencyCoach`: the hook session plus the
component-scoped `processedCallsRef` dedup set (EmergencyCoach.tsx line
196), which no code ever clears. -/
structure CoachState where
  session : SessionState
  processedCalls : List String
  deriving DecidableEq, Repr

/-- `handleStart` as seen from the component: it calls the hook's `start`,
which touches only the session; `processedCallsRef` is not re-created or
cleared. -/
def coachStart (cfg : AgentConfig) (cs : CoachState) :
    CoachState × Option StartError :=
  let r := startSync cfg cs.session
  ({ cs with session := r.1 }, r.2)

/-- C10: every `start` call that passes the configuration check resets the
transcript to `[]` (the previous session's entries are dropped) before any
connection is attempted, and sets the status to `connecting`; the dedup set,
scoped to the component rather than the session, is left untouched. -/
theorem start_resets_transcript (cfg : AgentConfig) (cs : CoachState)
    (hok : (falsyEnv cfg.apiKey || falsyEnv cfg.agentId) = false) :
    (coachStart cfg cs).1.session.messages = [] ∧
    (coachStart cfg cs).1.session.status = AgentStatus.connecting ∧
    (coachStart cfg cs).2 = none ∧
    (coachStart cfg cs).1.processedCalls = cs.processedCalls := by
  unfold coachStart startSync
  rw [if_neg (by rw [hok]; exact Bool.false_ne_true)]
  exact ⟨rfl, rfl, rfl, rfl⟩

theorem start_resets_transcript_witness :
    (coachStart (AgentConfig.mk (some "key") (some "agent"))
      (CoachState.mk
        (SessionState.mk AgentStatus.disconnected
          [TranscriptMessage.mk "user-1" Role.user "old"] false false
          false false false false [] false)
        ["assistant-2"])).1.session.messages = [] :=
  (start_resets_transcript (AgentConfig.mk (some "key") (some "agent"))
    (CoachState.mk
      (SessionState.mk AgentStatus.disconnected
        [TranscriptMessage.mk "user-1" Role.user "old"] false false
        false false false false [] false)
      ["assistant-2"]) rfl).1

/-- The inbound message types dispatched by `handleWebSocketMessage`
(useElevenLabsAgent.ts lines 143-218); the payload field is `none` when the
optional-chained field is absent. -/
inductive InMsg
  | initMetadata
  | userTranscript (t : Option String)
  | agentResponse (t : Option String)
  | audio (chunk : Option ℕ)
  | audioEnd
  | interruption
  | ping
  | errorMsg
  | unknown

/-- `handleWebSocketMessage` (useElevenLabsAgent.ts lines 143-218).
`now` is the value `Date.now()` returns while the message is processed.
The `audio` case records the synchronous enqueue into the playback queue
(the asynchronous drain loop is the scheduler model above); `ping` sends a
`pong` and `error` logs, neither touching the hook state. -/
def handleWebSocketMessage (now : ℕ) (msg : InMsg) (st : SessionState) :
    SessionState :=
  match msg with
  | InMsg.initMetadata => { st with status := AgentStatus.listening }
  | InMsg.userTranscript t =>
    match t with
    | some s =>
      if s.isEmpty then st
      else { st with messages := st.messages ++
        [TranscriptMessage.mk ("user-" ++ toString now) Role.user s] }
    | none => st
  | InMsg.agentResponse t =>
    let st1 : SessionState :=
      match t with
      | some s =>
        if s.isEmpty then st
        else { st with messages := st.messages ++
          [TranscriptMessage.mk ("assistant-" ++ toString now) Role.assistant s] }
      | none => st
    { st1 with status := AgentStatus.speaking }
  | InMsg.audio c =>
    match c with
    | some seg => { st with audioQueue := st.audioQueue ++ [seg] }
    | none => st
  | InMsg.audioEnd => { st with status := AgentStatus.listening }
  | InMsg.interruption =>
    { st with audioQueue := [], status := AgentStatus.listening }
  | InMsg.ping => st
  | InMsg.errorMsg => st
  | InMsg.unknown => st

/-- C7: from `listening` or `speaking`, an inbound `interruption` message
always empties the pending playback queue, leaves the status `listening`,
and touches neither the in-progress playback (the playing flag — the code
never stops the live buffer source) nor the transcript. -/
theorem interruption_flushes_queue (now : ℕ) (st : SessionState)
    (h : st.status = AgentStatus.listening ∨ st.status = AgentStatus.speaking) :
    (handleWebSocketMessage now InMsg.interruption st).audioQueue = [] ∧
    (handleWebSocketMessage now InMsg.interruption st).status =
      AgentStatus.listening ∧
    (handleWebSocketMessage now InMsg.interruption st).isPlaying =
      st.isPlaying ∧
    (handleWebSocketMessage now InMsg.interruption st).messages = st.messages :=
  ⟨rfl, rfl, rfl, rfl⟩

theorem interruption_flushes_queue_witness :
    (handleWebSocketMessage 3 InMsg.interruption
      (SessionState.mk AgentStatus.speaking [] true true
        true true true true [4, 5] true)).audioQueue = [] :=
  (interruption_flushes_queue 3
    (SessionState.mk AgentStatus.speaking [] true true
      true true true true [4, 5] true) (Or.inr rfl)).1

/-- `sendUserText` (useElevenLabsAgent.ts lines 361-381): a no-op unless
the transport is open; otherwise sends and optimistically appends a local
`user` entry with id `user-${Date.now()}`. -/
def sendUserText (now : ℕ) (text : String) (st : SessionState) : SessionState :=
  if st.wsOpen then
    { st with messages := st.messages ++
      [TranscriptMessage.mk ("user-" ++ toString now) Role.user text] }
  else st

/-- C9 failing input: two `user_transcript` messages processed in the same
millisecond (`Date.now()` returning `5` both times) yield two distinct
transcript entries carrying the identical identifier `"user-5"` — and
`sendUserText` in that same millisecond mints the very same identifier —
contradicting the required uniqueness of identifiers within a session. -/
theorem transcript_id_collision :
    ((handleWebSocketMessage 5 (InMsg.userTranscript (some "b"))
        (handleWebSocketMessage 5 (InMsg.userTranscript (some "a"))
          (SessionState.mk AgentStatus.listening [] true true
            true true true true [] false))).messages =
      [TranscriptMessage.mk "user-5" Role.user "a",
       TranscriptMessage.mk "user-5" Role.user "b"]) ∧
    TranscriptMessage.mk "user-5" Role.user "a" ≠
      TranscriptMessage.mk "user-5" Role.user "b" ∧
    (TranscriptMessage.mk "user-5" Role.user "a").id =
      (TranscriptMessage.mk "user-5" Role.user "b").id ∧
    (sendUserText 5 "c"
        (SessionState.mk AgentStatus.listening [] true true
          true true true true [] false)).messages =
      [TranscriptMessage.mk "user-5" Role.user "c"] := by
  refine ⟨by decide, by decide, rfl, by decide⟩
